import Mathlib

/-!
Verification of the go-markov-image repository: a shallow embedding of the
color codec, the transition model (`markov` struct), and the synthesis
algorithm (`Generate`), translated from `src/markov/markov.go`.

Machine integers are modelled as `Nat` with explicit `% 2^w` where the Go
code truncates (`uint8`, `uint32`).  Randomness (`crypto/rand.Int`) is
modelled by an explicit stream of draws (`List Nat`): each call consumes the
head of the stream and reduces it modulo the requested bound; a call with a
non-positive bound panics (returns `none`), matching `rand.Int`'s documented
panic for `max <= 0`.  Go run-time panics (nil-color dereference, `rand.Int`
on a non-positive bound) are modelled as `none` / `GenOutcome.panics`.
-/

/-- Four 8-bit channel values, the `[4]uint8` of `pack`/`unpack`. -/
structure Bytes4 where
  b0 : Nat
  b1 : Nat
  b2 : Nat
  b3 : Nat
deriving DecidableEq

/-- A `color.RGBA` value: four 8-bit channels. -/
structure Color where
  r : Nat
  g : Nat
  b : Nat
  a : Nat
deriving DecidableEq

/-- An `image.Point`: integer coordinates. -/
structure Point where
  x : Int
  y : Int
deriving DecidableEq

/-- An `image.Rectangle` with min inclusive and max exclusive. -/
structure Rect where
  minX : Int
  minY : Int
  maxX : Int
  maxY : Int
deriving DecidableEq

/-- `image.Rect(x0, y0, x1, y1)`: swaps the corners into canonical order. -/
def mkRect (x0 y0 x1 y1 : Int) : Rect :=
  let px := if x0 > x1 then (x1, x0) else (x0, x1)
  let py := if y0 > y1 then (y1, y0) else (y0, y1)
  ⟨px.1, py.1, px.2, py.2⟩

/-- `p.Add(q)` on `image.Point`. -/
def Point.Add (p q : Point) : Point :=
  ⟨p.x + q.x, p.y + q.y⟩

/-- The bounds test used throughout `markov.go`
(`p.X >= minX && p.X < maxX && p.Y >= minY && p.Y < maxY`), which is also
`image.Point.In` for a rectangle. -/
def inRectB (r : Rect) (p : Point) : Bool :=
  decide (r.minX ≤ p.x) && decide (p.x < r.maxX) &&
    decide (r.minY ≤ p.y) && decide (p.y < r.maxY)

/-- `DefaultCompression` from `markov.go`. -/
def DefaultCompression : Nat := 1

/-- The `RGBA()` method of `color.RGBA`: each stored 8-bit channel `v` is
widened to 16 bits as `v | v << 8 = v * 0x101`.  The `% 256` records that the
struct fields are `uint8`. -/
def rgbaChannels (c : Color) : Nat × Nat × Nat × Nat :=
  (c.r % 256 * 257, c.g % 256 * 257, c.b % 256 * 257, c.a % 256 * 257)

/-- `compressColor(c, threshold)`: truncate each widened channel back to
`uint8` and round it down to a multiple of the threshold. -/
def compressColor (c : Color) (threshold : Nat) : Color :=
  let ch := rgbaChannels c
  ⟨ch.1 % 256 / threshold * threshold,
   ch.2.1 % 256 / threshold * threshold,
   ch.2.2.1 % 256 / threshold * threshold,
   ch.2.2.2 % 256 / threshold * threshold⟩

/-- `pack(b)`: packs four bytes into one 32-bit key, R in the highest byte.
The byte fields occupy disjoint bit ranges, so the Go `|` is addition. -/
def pack (v : Bytes4) : Nat :=
  v.b0 % 256 * 2 ^ 24 + v.b1 % 256 * 2 ^ 16 + v.b2 % 256 * 2 ^ 8 + v.b3 % 256

/-- `unpack(i)`: extracts the four bytes of a 32-bit key
(`(i >> k) & 255` is `i / 2^k % 256`). -/
def unpack (i : Nat) : Bytes4 :=
  ⟨i / 2 ^ 24 % 256, i / 2 ^ 16 % 256, i / 2 ^ 8 % 256, i % 256⟩

/-- `encodeColor(c)`: compress with the default threshold, then pack the four
`uint8`-truncated channels. -/
def encodeColor (c : Color) : Nat :=
  let c2 := compressColor c DefaultCompression
  let ch := rgbaChannels c2
  pack ⟨ch.1 % 256, ch.2.1 % 256, ch.2.2.1 % 256, ch.2.2.2 % 256⟩

/-- `decodeColor(i)`: unpack a key into a `color.RGBA`. -/
def decodeColor (i : Nat) : Color :=
  let b := unpack i
  ⟨b.b0, b.b1, b.b2, b.b3⟩

/-- `colorToRGBA(c)`: truncate the widened channels of `c.RGBA()` to `uint8`. -/
def colorToRGBA (c : Color) : Color :=
  let ch := rgbaChannels c
  ⟨ch.1 % 256, ch.2.1 % 256, ch.2.2.1 % 256, ch.2.2.2 % 256⟩

/-- The `stateSpace` map `map[uint32][]uint32`, represented as an
insertion-ordered association list with pairwise distinct keys (the only
inserts are those of `AddColorTransition`, which never duplicates a key). -/
abbrev stateSpace := List (Nat × List Nat)

/-- Map lookup `m.model[key]` (with `ok` as `Option`). -/
def lookupSS : stateSpace → Nat → Option (List Nat)
  | [], _ => none
  | (k, l) :: rest, key => if k = key then some l else lookupSS rest key

/-- Map update `m.model[key] = append(m.model[key], v)`: extend the entry of
`key` if present, else add a fresh entry `[v]`. -/
def ssAppend : stateSpace → Nat → Nat → stateSpace
  | [], key, v => [(key, [v])]
  | (k, l) :: rest, key, v =>
    if k = key then (k, l ++ [v]) :: rest else (k, l) :: ssAppend rest key v

/-- The `markov` struct. -/
structure markov where
  keys : List Nat
  model : stateSpace
  format : String
  bounds : Rect
deriving DecidableEq

/-- `New()`: fresh model with an empty state space. -/
def markov.New : markov :=
  { keys := [], model := [], format := "", bounds := ⟨0, 0, 0, 0⟩ }

/-- `m.MinX()`. -/
def markov.MinX (m : markov) : Int := m.bounds.minX

/-- `m.MinY()`. -/
def markov.MinY (m : markov) : Int := m.bounds.minY

/-- `m.MaxX()`. -/
def markov.MaxX (m : markov) : Int := m.bounds.maxX

/-- `m.MaxY()`. -/
def markov.MaxY (m : markov) : Int := m.bounds.maxY

/-- `crypto/rand.Int(rand.Reader, big.NewInt(n))`: consumes one draw from the
stream and returns a value in `[0, n)`; panics (`none`) when `n ≤ 0`. -/
def randInt (n : Int) (rng : List Nat) : Option (Nat × List Nat) :=
  if n ≤ 0 then none else some (rng.headD 0 % n.toNat, rng.tail)

/-- `m.AddColorTransition(c1, c2)`: encode both colors, record `key1` in the
distinct-key list if it is new, and append `key2` to `key1`'s list. -/
def markov.AddColorTransition (m : markov) (c1 c2 : Color) : markov :=
  let key1 := encodeColor c1
  let key2 := encodeColor c2
  let keys := if (lookupSS m.model key1).isNone then m.keys ++ [key1] else m.keys
  { m with keys := keys, model := ssAppend m.model key1 key2 }

/-- `m.GetNextColor(c)`: look up the transition list of `c`'s key; absent key
returns Go `nil` (`some none` here, no draw consumed); present key draws a
uniform index (outer `none` models the `rand.Int` panic on an empty list). -/
def markov.GetNextColor (m : markov) (c : Color) (rng : List Nat) :
    Option (Option Color × List Nat) :=
  match lookupSS m.model (encodeColor c) with
  | some values =>
    match randInt (Int.ofNat values.length) rng with
    | none => none
    | some (i, rng2) => some (some (decodeColor (values.getD i 0)), rng2)
  | none => some (none, rng)

/-- `m.GetRandomColor()`: decode a uniformly drawn element of the distinct-key
list; panics (`none`) when the list is empty (`rand.Int` with bound 0). -/
def markov.GetRandomColor (m : markov) (rng : List Nat) :
    Option (Color × List Nat) :=
  match randInt (Int.ofNat m.keys.length) rng with
  | none => none
  | some (i, rng2) => some (decodeColor (m.keys.getD i 0), rng2)

/-- An `image.RGBA`: its rectangle and the stored pixels (the `Pix` array
addressed by point rather than by stride offset; the in-bounds offsets are in
bijection with the in-bounds points). -/
structure RGBAImage where
  rect : Rect
  pix : Point → Color

/-- `image.NewRGBA(r)`: all pixels zero. -/
def newRGBA (r : Rect) : RGBAImage :=
  ⟨r, fun _ => ⟨0, 0, 0, 0⟩⟩

/-- `im.SetRGBA(x, y, c)`: stores `c` when the point is inside the image
rectangle, otherwise does nothing. -/
def RGBAImage.SetRGBA (im : RGBAImage) (p : Point) (c : Color) : RGBAImage :=
  if inRectB im.rect p then
    { im with pix := fun q => if q = p then c else im.pix q }
  else im

/-- `im.At(x, y)`: the stored color inside the rectangle, zero outside. -/
def RGBAImage.At (im : RGBAImage) (p : Point) : Color :=
  if inRectB im.rect p then im.pix p else ⟨0, 0, 0, 0⟩

/-- The `adjacent` offset list: left, up, right, down. -/
def adjacent : List Point :=
  [⟨-1, 0⟩, ⟨0, -1⟩, ⟨1, 0⟩, ⟨0, 1⟩]

/-- Outcome of a fuelled `Generate` run: a finished image, a Go panic, or
fuel exhaustion (the loop was still running after `fuel` iterations). -/
inductive GenOutcome where
  | ok (im : RGBAImage)
  | panics
  | fuelOut

/-- Whether the outcome is fuel exhaustion. -/
def GenOutcome.isFuelOut : GenOutcome → Bool
  | .fuelOut => true
  | _ => false

/-- Whether the outcome is a panic. -/
def GenOutcome.isPanics : GenOutcome → Bool
  | .panics => true
  | _ => false

/-- Whether the outcome is a finished image. -/
def GenOutcome.isOk : GenOutcome → Bool
  | .ok _ => true
  | _ => false

/-- The rectangle of a finished image, when the outcome is one. -/
def GenOutcome.rectOf : GenOutcome → Option Rect
  | .ok im => some im.rect
  | _ => none

/-- The handling of one adjacent point `p2` inside `Generate`'s inner loop
(lines 118-130 of `markov.go`): if `p2` is inside the model bounds and the
red byte of the output pixel at `p2` is zero (`im.Pix[im.PixOffset(...)] == 0`),
draw the next color from the current `c`, store it, reassign `c`, and push
`p2`; a Go-`nil` next color flows into `colorToRGBA` and panics (`none`). -/
def adjStep (m : markov) (p2 : Point) :
    RGBAImage × List Point × Color × List Nat →
    Option (RGBAImage × List Point × Color × List Nat)
  | (im, stk, c, rng) =>
    if inRectB m.bounds p2 then
      if (im.pix p2).r = 0 then
        match m.GetNextColor c rng with
        | none => none
        | some (none, _) => none
        | some (some c2, rng2) =>
          some (im.SetRGBA p2 (colorToRGBA c2), stk ++ [p2], c2, rng2)
      else some (im, stk, c, rng)
    else some (im, stk, c, rng)

/-- The `for _, adj := range adjacent` loop of `Generate`, threading the
image, the frontier, the mutable color variable `c`, and the draw stream. -/
def processAdjs (m : markov) (p : Point) :
    List Point → (RGBAImage × List Point × Color × List Nat) →
    Option (RGBAImage × List Point × Color × List Nat)
  | [], acc => some acc
  | a :: rest, acc =>
    match adjStep m (p.Add a) acc with
    | none => none
    | some acc2 => processAdjs m p rest acc2

/-- One iteration of `Generate`'s frontier loop: pop a random element of the
stack (the external `randomstack` collaborator is modelled from the spec: the
frontier pops a uniformly random element), read its color from the image, and
process the four adjacent offsets. -/
def genIter (m : markov) (im : RGBAImage) (stack : List Point)
    (rng : List Nat) : Option (RGBAImage × List Point × List Nat) :=
  match randInt (Int.ofNat stack.length) rng with
  | none => none
  | some (i, rng1) =>
    let p := stack.getD i ⟨0, 0⟩
    let stack2 := stack.eraseIdx i
    let c := im.At p
    match processAdjs m p adjacent (im, stack2, c, rng1) with
    | none => none
    | some (im2, stk2, _, rng2) => some (im2, stk2, rng2)

/-- `for stack.Len() > 0 { ... }`, with explicit fuel: each fuel unit pays
for one loop-condition check. -/
def genLoop (m : markov) : Nat → RGBAImage → List Point → List Nat → GenOutcome
  | 0, _, _, _ => GenOutcome.fuelOut
  | Nat.succ fuel, im, stack, rng =>
    if stack.isEmpty then GenOutcome.ok im
    else
      match genIter m im stack rng with
      | none => GenOutcome.panics
      | some (im2, stk2, rng2) => genLoop m fuel im2 stk2 rng2

/-- The starting-coordinate draw of `Generate` (lines 101-106):
`x` uniform in `[0, MaxX)` and `y` uniform in `[0, MaxY)`; panics when
either bound is non-positive. -/
def markov.startPoint (m : markov) (rng : List Nat) :
    Option (Point × List Nat) :=
  match randInt m.MaxX rng with
  | none => none
  | some (x, rng1) =>
    match randInt m.MaxY rng1 with
    | none => none
    | some (y, rng2) => some (⟨(x : Int), (y : Int)⟩, rng2)

/-- `m.Generate()`: allocate the output image over the model bounds, color a
random starting coordinate with a random model color, and run the frontier
loop. -/
def markov.Generate (m : markov) (fuel : Nat) (rng : List Nat) : GenOutcome :=
  let im := newRGBA (mkRect m.MinX m.MinY m.MaxX m.MaxY)
  match m.startPoint rng with
  | none => GenOutcome.panics
  | some (p, rng1) =>
    match m.GetRandomColor rng1 with
    | none => GenOutcome.panics
    | some (c, rng2) =>
      let im2 := im.SetRGBA p (colorToRGBA c)
      genLoop m fuel im2 [p] rng2

/-- The integer coordinates `lo, lo+1, ..., hi-1`. -/
def intRange (lo hi : Int) : List Int :=
  (List.range (hi - lo).toNat).map (fun (i : Nat) => lo + (i : Int))

/-- The neighbor scan of one source pixel in `ReadFile` (lines 162-169): for
each adjacent offset whose target lies within bounds, add a transition from
the pixel's color to the neighbor's color. -/
def scanAdj (src : Point → Color) (r : Rect) (p : Point) (m : markov) : markov :=
  adjacent.foldl
    (fun m adj =>
      let p2 := p.Add adj
      if inRectB r p2 then m.AddColorTransition (src p) (src p2) else m)
    m

/-- The model-building scan of `ReadFile` (lines 154-171) applied to an
already-decoded source grid: set the format and bounds, then scan every pixel
(x outer, y inner, both ascending) and record its neighbor transitions. -/
def buildFromGrid (src : Point → Color) (r : Rect) : markov :=
  (intRange r.minX r.maxX).foldl
    (fun m x =>
      (intRange r.minY r.maxY).foldl
        (fun m y => scanAdj src r ⟨x, y⟩ m) m)
    { markov.New with format := "png", bounds := r }

/-- The sum of transition-list lengths over all keys of the state space. -/
def totalTransitions (m : markov) : Nat :=
  (m.model.map (fun e => e.2.length)).sum

/-- The number of in-bounds adjacent offsets of `p`. -/
def countAdj (r : Rect) (p : Point) : Nat :=
  (adjacent.filter (fun a => inRectB r (p.Add a))).length

/-- The number of valid (pixel, in-bounds-neighbor) ordered pairs of a grid. -/
def validPairCount (r : Rect) : Nat :=
  ((intRange r.minX r.maxX).map (fun x =>
    ((intRange r.minY r.maxY).map (fun y => countAdj r ⟨x, y⟩)).sum)).sum

/-- The pixel count of a bounds rectangle. -/
def Rect.pixelCount (r : Rect) : Nat :=
  (r.maxX - r.minX).toNat * (r.maxY - r.minY).toNat

/-- The model invariant of claim C10: the distinct-key list is exactly the
state-space keys in first-insertion order without duplicates, and every entry
of the state space has a non-empty transition list. -/
def ModelInv (m : markov) : Prop :=
  m.keys = m.model.map Prod.fst ∧ m.keys.Nodup ∧ ∀ e ∈ m.model, e.2 ≠ []

/-- Opaque red, `color.RGBA{255, 0, 0, 255}`. -/
def cRed : Color := ⟨255, 0, 0, 255⟩

/-- Opaque green, `color.RGBA{0, 255, 0, 255}`: its red byte is zero, so the
sentinel test of `Generate` line 121 confuses it with an unset pixel. -/
def cGreen : Color := ⟨0, 255, 0, 255⟩

/-- Opaque blue, `color.RGBA{0, 0, 255, 255}`. -/
def cBlue : Color := ⟨0, 0, 255, 255⟩

/-- Opaque yellow, `color.RGBA{255, 255, 0, 255}`. -/
def cYellow : Color := ⟨255, 255, 0, 255⟩

/-- The encoded key of red. -/
def kRed : Nat := encodeColor cRed

/-- The encoded key of green. -/
def kGreen : Nat := encodeColor cGreen

/-- The encoded key of blue. -/
def kBlue : Nat := encodeColor cBlue

/-- A 1x2 source image that is entirely green. -/
def srcGreen : Point → Color := fun _ => cGreen

/-- The bounds of the 1x2 sources. -/
def rect1x2 : Rect := ⟨0, 0, 1, 2⟩

/-- The model built from the all-green 1x2 source. -/
def mGreen : markov := buildFromGrid srcGreen rect1x2

/-- A 1x2 source image that is entirely red. -/
def srcRed : Point → Color := fun _ => cRed

/-- The model built from the all-red 1x2 source. -/
def mRed : markov := buildFromGrid srcRed rect1x2

/-- A model over a 3x1 canvas in which red's only transition target is blue
and blue has no entry at all: reaching blue during synthesis makes
`GetNextColor` return Go `nil`. -/
def mMissing : markov :=
  { keys := [kRed], model := [(kRed, [kBlue])], format := "png",
    bounds := ⟨0, 0, 3, 1⟩ }

/-- A model whose bounds rectangle does not start at the origin. -/
def mShift : markov :=
  { keys := [kRed], model := [(kRed, [kRed])], format := "png",
    bounds := ⟨2, 2, 4, 4⟩ }

/-- A model over a 3x1 canvas with transitions red -> green and
green -> blue, used to observe the chaining of `c` inside one step. -/
def mChain : markov :=
  { keys := [kRed, kGreen], model := [(kRed, [kGreen]), (kGreen, [kBlue])],
    format := "png", bounds := ⟨0, 0, 3, 1⟩ }

/-- A 3x1 output image whose center pixel has been colored red. -/
def gChain : RGBAImage :=
  (newRGBA ⟨0, 0, 3, 1⟩).SetRGBA ⟨1, 0⟩ cRed

/-- The 2x2 source image of the spec's example scenario: red, green, blue,
yellow at (0,0), (1,0), (0,1), (1,1). -/
def src2x2 : Point → Color := fun p =>
  if p = ⟨0, 0⟩ then cRed
  else if p = ⟨1, 0⟩ then cGreen
  else if p = ⟨0, 1⟩ then cBlue
  else cYellow

/-- The bounds of the 2x2 example source. -/
def rect2x2 : Rect := ⟨0, 0, 2, 2⟩

/-- The model built from the 2x2 example source. -/
def m2x2 : markov := buildFromGrid src2x2 rect2x2

/-- The model built from a 1x1 red source image. -/
def mOne : markov := buildFromGrid srcRed ⟨0, 0, 1, 1⟩

/-- The image pixel of a `genIter` result at a point. -/
def iterAt (res : Option (RGBAImage × List Point × List Nat)) (p : Point) :
    Option Color :=
  res.map (fun t => t.1.At p)

/-- The literal value of `mGreen` (checked by `mGreen_eq` below): green's key
maps to two green transitions, recorded once per ordered adjacent pair. -/
def mGreenLit : markov :=
  { keys := [kGreen], model := [(kGreen, [kGreen, kGreen])], format := "png",
    bounds := rect1x2 }

/-- All-channel-zero color, the unset sentinel of the output grid. -/
def cZero : Color := ⟨0, 0, 0, 0⟩

/-- A 3x1 output image whose center-left pixel (1,0) has been colored blue. -/
def gBlueAt1 : RGBAImage :=
  (newRGBA ⟨0, 0, 3, 1⟩).SetRGBA ⟨1, 0⟩ cBlue

/-- The model a 1x1 source produces: empty key list and state space. -/
def mEmpty11 : markov :=
  { keys := [], model := [], format := "png", bounds := ⟨0, 0, 1, 1⟩ }

/-- C8: For every 4-tuple of 8-bit channel values b, unpack(pack(b)) == b,
and for every 32-bit value i, pack(unpack(i)) == i: the packing/unpacking
functions are exact inverses (a bijection between 4-byte tuples and 32-bit
keys). -/
theorem pack_unpack_exact_inverses :
    (∀ v : Bytes4, v.b0 < 256 → v.b1 < 256 → v.b2 < 256 → v.b3 < 256 →
      unpack (pack v) = v) ∧
    ∀ i : Nat, i < 2 ^ 32 → pack (unpack i) = i := by
  constructor
  · rintro ⟨b0, b1, b2, b3⟩ h0 h1 h2 h3
    simp only [pack, unpack, Bytes4.mk.injEq] at h0 h1 h2 h3 ⊢
    refine ⟨?_, ?_, ?_, ?_⟩ <;> omega
  · intro i hi
    simp only [pack, unpack]
    omega

/-- Witness for C8 at the bytes (17, 34, 51, 68) and the key 0x12345678. -/
theorem pack_unpack_exact_inverses_witness :
    unpack (pack ⟨17, 34, 51, 68⟩) = ⟨17, 34, 51, 68⟩ ∧
    pack (unpack 305419896) = 305419896 :=
  ⟨pack_unpack_exact_inverses.1 ⟨17, 34, 51, 68⟩ (by decide) (by decide)
      (by decide) (by decide),
    pack_unpack_exact_inverses.2 305419896 (by decide)⟩

theorem randInt_pos (n : Int) (rng : List Nat) (h : 0 < n) :
    randInt n rng = some (rng.headD 0 % n.toNat, rng.tail) := by
  unfold randInt
  rw [if_neg (by omega)]

theorem randInt_one (rng : List Nat) :
    randInt (Int.ofNat 1) rng = some (0, rng.tail) := by
  rw [randInt_pos _ _ (by norm_num)]
  simp [Nat.mod_one]

theorem adjStep_eq (m : markov) (p2 : Point) (im : RGBAImage)
    (stk : List Point) (c : Color) (rng : List Nat) :
    adjStep m p2 (im, stk, c, rng) =
      if inRectB m.bounds p2 = true then
        if (im.pix p2).r = 0 then
          match m.GetNextColor c rng with
          | none => none
          | some (none, _) => none
          | some (some c2, rng2) =>
            some (im.SetRGBA p2 (colorToRGBA c2), stk ++ [p2], c2, rng2)
        else some (im, stk, c, rng)
      else some (im, stk, c, rng) := rfl

theorem adjStep_out (m : markov) (p2 : Point) (im : RGBAImage)
    (stk : List Point) (c : Color) (rng : List Nat)
    (h : inRectB m.bounds p2 = false) :
    adjStep m p2 (im, stk, c, rng) = some (im, stk, c, rng) := by
  rw [adjStep_eq, if_neg (by simp [h])]

theorem adjStep_occupied (m : markov) (p2 : Point) (im : RGBAImage)
    (stk : List Point) (c : Color) (rng : List Nat)
    (hin : inRectB m.bounds p2 = true) (hset : (im.pix p2).r ≠ 0) :
    adjStep m p2 (im, stk, c, rng) = some (im, stk, c, rng) := by
  rw [adjStep_eq, if_pos hin, if_neg hset]

theorem adjStep_set (m : markov) (p2 : Point) (im : RGBAImage)
    (stk : List Point) (c : Color) (rng : List Nat) (c2 : Color)
    (rng2 : List Nat) (hin : inRectB m.bounds p2 = true)
    (hunset : (im.pix p2).r = 0)
    (hnext : m.GetNextColor c rng = some (some c2, rng2)) :
    adjStep m p2 (im, stk, c, rng) =
      some (im.SetRGBA p2 (colorToRGBA c2), stk ++ [p2], c2, rng2) := by
  rw [adjStep_eq, if_pos hin, if_pos hunset, hnext]

theorem adjStep_nil_panic (m : markov) (p2 : Point) (im : RGBAImage)
    (stk : List Point) (c : Color) (rng : List Nat) (rng2 : List Nat)
    (hin : inRectB m.bounds p2 = true) (hunset : (im.pix p2).r = 0)
    (hnext : m.GetNextColor c rng = some (none, rng2)) :
    adjStep m p2 (im, stk, c, rng) = none := by
  rw [adjStep_eq, if_pos hin, if_pos hunset, hnext]

theorem processAdjs_nil (m : markov) (p : Point)
    (acc : RGBAImage × List Point × Color × List Nat) :
    processAdjs m p [] acc = some acc := rfl

theorem processAdjs_cons_some (m : markov) (p a : Point) (rest : List Point)
    (acc acc2 : RGBAImage × List Point × Color × List Nat)
    (h : adjStep m (p.Add a) acc = some acc2) :
    processAdjs m p (a :: rest) acc = processAdjs m p rest acc2 := by
  simp only [processAdjs]
  rw [h]

theorem processAdjs_cons_none (m : markov) (p a : Point) (rest : List Point)
    (acc : RGBAImage × List Point × Color × List Nat)
    (h : adjStep m (p.Add a) acc = none) :
    processAdjs m p (a :: rest) acc = none := by
  simp only [processAdjs]
  rw [h]

theorem genLoop_succ_cons_some (m : markov) (fuel : Nat) (im : RGBAImage)
    (p : Point) (rest : List Point) (rng : List Nat) (im2 : RGBAImage)
    (stk2 : List Point) (rng2 : List Nat)
    (h : genIter m im (p :: rest) rng = some (im2, stk2, rng2)) :
    genLoop m (fuel + 1) im (p :: rest) rng = genLoop m fuel im2 stk2 rng2 := by
  simp only [genLoop]
  rw [if_neg (by simp), h]

theorem genLoop_succ_cons_none (m : markov) (fuel : Nat) (im : RGBAImage)
    (p : Point) (rest : List Point) (rng : List Nat)
    (h : genIter m im (p :: rest) rng = none) :
    genLoop m (fuel + 1) im (p :: rest) rng = GenOutcome.panics := by
  simp only [genLoop]
  rw [if_neg (by simp), h]

theorem genIter_singleton_some (m : markov) (im : RGBAImage) (p : Point)
    (rng : List Nat) (im2 : RGBAImage) (stk2 : List Point) (c2 : Color)
    (rng2 : List Nat)
    (h : processAdjs m p adjacent (im, [], im.At p, rng.tail)
      = some (im2, stk2, c2, rng2)) :
    genIter m im [p] rng = some (im2, stk2, rng2) := by
  unfold genIter
  rw [show (Int.ofNat ([p] : List Point).length) = Int.ofNat 1 from rfl,
    randInt_one]
  show (match processAdjs m p adjacent (im, [], im.At p, rng.tail) with
    | none => none
    | some (im2, stk2, _, rng2) => some (im2, stk2, rng2)) = some (im2, stk2, rng2)
  rw [h]

theorem genIter_singleton_none (m : markov) (im : RGBAImage) (p : Point)
    (rng : List Nat)
    (h : processAdjs m p adjacent (im, [], im.At p, rng.tail) = none) :
    genIter m im [p] rng = none := by
  unfold genIter
  rw [show (Int.ofNat ([p] : List Point).length) = Int.ofNat 1 from rfl,
    randInt_one]
  show (match processAdjs m p adjacent (im, [], im.At p, rng.tail) with
    | none => none
    | some (im2, stk2, _, rng2) => some (im2, stk2, rng2)) = none
  rw [h]

theorem Generate_run (m : markov) (fuel : Nat) (rng rng1 rng2 : List Nat)
    (p : Point) (c : Color)
    (hs : m.startPoint rng = some (p, rng1))
    (hc : m.GetRandomColor rng1 = some (c, rng2)) :
    m.Generate fuel rng =
      genLoop m fuel
        ((newRGBA (mkRect m.MinX m.MinY m.MaxX m.MaxY)).SetRGBA p
          (colorToRGBA c)) [p] rng2 := by
  simp only [markov.Generate, hs, hc]

theorem Generate_panic_color (m : markov) (fuel : Nat) (rng rng1 : List Nat)
    (p : Point) (hs : m.startPoint rng = some (p, rng1))
    (hc : m.GetRandomColor rng1 = none) :
    m.Generate fuel rng = GenOutcome.panics := by
  simp only [markov.Generate, hs, hc]

theorem SetRGBA_rect (im : RGBAImage) (p : Point) (c : Color) :
    (im.SetRGBA p c).rect = im.rect := by
  unfold RGBAImage.SetRGBA
  split <;> rfl

theorem SetRGBA_pix_same (im : RGBAImage) (p : Point) (c : Color)
    (h : inRectB im.rect p = true) : (im.SetRGBA p c).pix p = c := by
  unfold RGBAImage.SetRGBA
  rw [if_pos h]
  simp

theorem SetRGBA_pix_other (im : RGBAImage) (p q : Point) (c : Color)
    (h : q ≠ p) : (im.SetRGBA p c).pix q = im.pix q := by
  unfold RGBAImage.SetRGBA
  split
  · simp [if_neg h]
  · rfl

theorem getNextColor_green (rng : List Nat) :
    mGreenLit.GetNextColor cGreen rng = some (some cGreen, rng.tail) := by
  have hl : lookupSS mGreenLit.model (encodeColor cGreen)
      = some [kGreen, kGreen] := rfl
  have hr : randInt (Int.ofNat ([kGreen, kGreen]).length) rng
      = some (rng.headD 0 % 2, rng.tail) := by
    unfold randInt
    rw [if_neg (by decide)]
    rfl
  have hg : [kGreen, kGreen].getD (rng.headD 0 % 2) 0 = kGreen := by
    rcases Nat.mod_two_eq_zero_or_one (rng.headD 0) with h | h <;> rw [h] <;> rfl
  simp only [markov.GetNextColor, hl, hr, hg]
  rw [show decodeColor kGreen = cGreen from rfl]

theorem processAdjs_green_00 (g : RGBAImage) (rng : List Nat) (c : Color)
    (hc : c = cGreen) (h01 : (g.pix ⟨0, 1⟩).r = 0) :
    processAdjs mGreenLit ⟨0, 0⟩ adjacent (g, [], c, rng) =
      some (g.SetRGBA ⟨0, 1⟩ cGreen, [⟨0, 1⟩], cGreen, rng.tail) := by
  subst hc
  have s1 : adjStep mGreenLit ((⟨0, 0⟩ : Point).Add ⟨-1, 0⟩)
      ((g, [], cGreen, rng) : RGBAImage × List Point × Color × List Nat)
      = some (g, [], cGreen, rng) :=
    adjStep_out _ _ _ _ _ _ (by decide)
  have s2 : adjStep mGreenLit ((⟨0, 0⟩ : Point).Add ⟨0, -1⟩)
      ((g, [], cGreen, rng) : RGBAImage × List Point × Color × List Nat)
      = some (g, [], cGreen, rng) :=
    adjStep_out _ _ _ _ _ _ (by decide)
  have s3 : adjStep mGreenLit ((⟨0, 0⟩ : Point).Add ⟨1, 0⟩)
      ((g, [], cGreen, rng) : RGBAImage × List Point × Color × List Nat)
      = some (g, [], cGreen, rng) :=
    adjStep_out _ _ _ _ _ _ (by decide)
  have s4 : adjStep mGreenLit ((⟨0, 0⟩ : Point).Add ⟨0, 1⟩)
      ((g, [], cGreen, rng) : RGBAImage × List Point × Color × List Nat)
      = some (g.SetRGBA ((⟨0, 0⟩ : Point).Add ⟨0, 1⟩) (colorToRGBA cGreen),
          [] ++ [(⟨0, 0⟩ : Point).Add ⟨0, 1⟩], cGreen, rng.tail) :=
    adjStep_set _ _ _ _ _ _ _ _ (by decide) h01 (getNextColor_green rng)
  show processAdjs mGreenLit ⟨0, 0⟩ [⟨-1, 0⟩, ⟨0, -1⟩, ⟨1, 0⟩, ⟨0, 1⟩]
      (g, [], cGreen, rng) = _
  rw [processAdjs_cons_some _ _ _ _ _ _ s1, processAdjs_cons_some _ _ _ _ _ _ s2,
    processAdjs_cons_some _ _ _ _ _ _ s3, processAdjs_cons_some _ _ _ _ _ _ s4,
    processAdjs_nil]
  rfl

theorem processAdjs_green_01 (g : RGBAImage) (rng : List Nat) (c : Color)
    (hc : c = cGreen) (h00 : (g.pix ⟨0, 0⟩).r = 0) :
    processAdjs mGreenLit ⟨0, 1⟩ adjacent (g, [], c, rng) =
      some (g.SetRGBA ⟨0, 0⟩ cGreen, [⟨0, 0⟩], cGreen, rng.tail) := by
  subst hc
  have s1 : adjStep mGreenLit ((⟨0, 1⟩ : Point).Add ⟨-1, 0⟩)
      ((g, [], cGreen, rng) : RGBAImage × List Point × Color × List Nat)
      = some (g, [], cGreen, rng) :=
    adjStep_out _ _ _ _ _ _ (by decide)
  have s2 : adjStep mGreenLit ((⟨0, 1⟩ : Point).Add ⟨0, -1⟩)
      ((g, [], cGreen, rng) : RGBAImage × List Point × Color × List Nat)
      = some (g.SetRGBA ((⟨0, 1⟩ : Point).Add ⟨0, -1⟩) (colorToRGBA cGreen),
          [] ++ [(⟨0, 1⟩ : Point).Add ⟨0, -1⟩], cGreen, rng.tail) :=
    adjStep_set _ _ _ _ _ _ _ _ (by decide) h00 (getNextColor_green rng)
  have s3 : adjStep mGreenLit ((⟨0, 1⟩ : Point).Add ⟨1, 0⟩)
      ((g.SetRGBA ((⟨0, 1⟩ : Point).Add ⟨0, -1⟩) (colorToRGBA cGreen),
        [] ++ [(⟨0, 1⟩ : Point).Add ⟨0, -1⟩], cGreen, rng.tail) :
        RGBAImage × List Point × Color × List Nat)
      = some (g.SetRGBA ((⟨0, 1⟩ : Point).Add ⟨0, -1⟩) (colorToRGBA cGreen),
          [] ++ [(⟨0, 1⟩ : Point).Add ⟨0, -1⟩], cGreen, rng.tail) :=
    adjStep_out _ _ _ _ _ _ (by decide)
  have s4 : adjStep mGreenLit ((⟨0, 1⟩ : Point).Add ⟨0, 1⟩)
      ((g.SetRGBA ((⟨0, 1⟩ : Point).Add ⟨0, -1⟩) (colorToRGBA cGreen),
        [] ++ [(⟨0, 1⟩ : Point).Add ⟨0, -1⟩], cGreen, rng.tail) :
        RGBAImage × List Point × Color × List Nat)
      = some (g.SetRGBA ((⟨0, 1⟩ : Point).Add ⟨0, -1⟩) (colorToRGBA cGreen),
          [] ++ [(⟨0, 1⟩ : Point).Add ⟨0, -1⟩], cGreen, rng.tail) :=
    adjStep_out _ _ _ _ _ _ (by decide)
  show processAdjs mGreenLit ⟨0, 1⟩ [⟨-1, 0⟩, ⟨0, -1⟩, ⟨1, 0⟩, ⟨0, 1⟩]
      (g, [], cGreen, rng) = _
  rw [processAdjs_cons_some _ _ _ _ _ _ s1, processAdjs_cons_some _ _ _ _ _ _ s2,
    processAdjs_cons_some _ _ _ _ _ _ s3, processAdjs_cons_some _ _ _ _ _ _ s4,
    processAdjs_nil]
  rfl

theorem startPoint_green (rng : List Nat) :
    mGreenLit.startPoint rng =
      some (⟨0, ((rng.tail.headD 0 % 2 : Nat) : Int)⟩, rng.tail.tail) := by
  have h1 : randInt mGreenLit.MaxX rng = some (rng.headD 0 % 1, rng.tail) := by
    rw [randInt_pos _ _ (by decide)]
    rfl
  have h2 : randInt mGreenLit.MaxY rng.tail
      = some (rng.tail.headD 0 % 2, rng.tail.tail) := by
    rw [randInt_pos _ _ (by decide)]
    rfl
  simp only [markov.startPoint, h1, h2, Nat.mod_one]
  rfl

theorem getRandomColor_green (rng : List Nat) :
    mGreenLit.GetRandomColor rng = some (cGreen, rng.tail) := by
  have h1 : randInt (Int.ofNat mGreenLit.keys.length) rng
      = some (rng.headD 0 % 1, rng.tail) := by
    rw [randInt_pos _ _ (by decide)]
    rfl
  simp only [markov.GetRandomColor, h1, Nat.mod_one]
  rw [show mGreenLit.keys.getD 0 0 = kGreen from rfl,
    show decodeColor kGreen = cGreen from rfl]

theorem genIter_green (g : RGBAImage) (p : Point) (rng : List Nat)
    (hrect : g.rect = rect1x2)
    (h00 : (g.pix ⟨0, 0⟩).r = 0) (h01 : (g.pix ⟨0, 1⟩).r = 0)
    (hp : p = ⟨0, 0⟩ ∨ p = ⟨0, 1⟩) (hpg : g.pix p = cGreen) :
    ∃ g2 p2 rng2,
      genIter mGreenLit g [p] rng = some (g2, [p2], rng2) ∧
      g2.rect = rect1x2 ∧ (g2.pix ⟨0, 0⟩).r = 0 ∧ (g2.pix ⟨0, 1⟩).r = 0 ∧
      (p2 = ⟨0, 0⟩ ∨ p2 = ⟨0, 1⟩) ∧ g2.pix p2 = cGreen := by
  rcases hp with hp | hp <;> subst hp
  · have hAt : g.At ⟨0, 0⟩ = cGreen := by
      unfold RGBAImage.At
      rw [hrect, if_pos (by decide)]
      exact hpg
    refine ⟨g.SetRGBA ⟨0, 1⟩ cGreen, ⟨0, 1⟩, rng.tail.tail,
      genIter_singleton_some _ _ _ _ _ _ _ _
        (processAdjs_green_00 g rng.tail (g.At ⟨0, 0⟩) hAt h01),
      ?_, ?_, ?_, Or.inr rfl, ?_⟩
    · rw [SetRGBA_rect, hrect]
    · rw [SetRGBA_pix_other g _ _ _ (by decide)]
      exact h00
    · rw [SetRGBA_pix_same g _ _ (by rw [hrect]; decide)]
      rfl
    · exact SetRGBA_pix_same g _ _ (by rw [hrect]; decide)
  · have hAt : g.At ⟨0, 1⟩ = cGreen := by
      unfold RGBAImage.At
      rw [hrect, if_pos (by decide)]
      exact hpg
    refine ⟨g.SetRGBA ⟨0, 0⟩ cGreen, ⟨0, 0⟩, rng.tail.tail,
      genIter_singleton_some _ _ _ _ _ _ _ _
        (processAdjs_green_01 g rng.tail (g.At ⟨0, 1⟩) hAt h00),
      ?_, ?_, ?_, Or.inl rfl, ?_⟩
    · rw [SetRGBA_rect, hrect]
    · rw [SetRGBA_pix_same g _ _ (by rw [hrect]; decide)]
      rfl
    · rw [SetRGBA_pix_other g _ _ _ (by decide)]
      exact h01
    · exact SetRGBA_pix_same g _ _ (by rw [hrect]; decide)

theorem genLoop_green (fuel : Nat) :
    ∀ (g : RGBAImage) (p : Point) (rng : List Nat),
      g.rect = rect1x2 → (g.pix ⟨0, 0⟩).r = 0 → (g.pix ⟨0, 1⟩).r = 0 →
      (p = ⟨0, 0⟩ ∨ p = ⟨0, 1⟩) → g.pix p = cGreen →
      genLoop mGreenLit fuel g [p] rng = GenOutcome.fuelOut := by
  induction fuel with
  | zero => intro g p rng _ _ _ _ _; rfl
  | succ n ih =>
    intro g p rng hrect h00 h01 hp hpg
    obtain ⟨g2, p2, rng2, hiter, h1, h2, h3, h4, h5⟩ :=
      genIter_green g p rng hrect h00 h01 hp hpg
    rw [genLoop_succ_cons_some _ _ _ _ _ _ _ _ _ hiter]
    exact ih g2 p2 rng2 h1 h2 h3 h4 h5

theorem mGreen_eq : mGreen = mGreenLit := by decide

/-- C1: the claim fails on the code. `Generate` on the model built from the
all-green 1x2 source never terminates, under every sequence of random draws:
the sentinel test of line 121 checks only the red byte, and green's red byte
is zero, so the two pixels re-color each other forever.  The run is still
going after `fuel` loop iterations for EVERY fuel, in particular after
pixelCount = 2 iterations. -/
theorem generate_green_never_terminates (fuel : Nat) (rng : List Nat) :
    mGreen.Generate fuel rng = GenOutcome.fuelOut ∧
    mGreen.bounds.pixelCount = 2 := by
  refine ⟨?_, by decide⟩
  rw [mGreen_eq]
  have hs := startPoint_green rng
  have hc := getRandomColor_green rng.tail.tail
  rw [Generate_run mGreenLit fuel rng _ _ _ _ hs hc]
  rcases Nat.mod_two_eq_zero_or_one (rng.tail.headD 0) with hy | hy <;>
    rw [hy] at *
  · apply genLoop_green
    · rw [SetRGBA_rect]
      rfl
    · rw [show ((0 : Nat) : Int) = (0 : Int) from rfl]
      rw [SetRGBA_pix_same _ _ _ (by decide)]
      rfl
    · rw [show ((0 : Nat) : Int) = (0 : Int) from rfl]
      rw [SetRGBA_pix_other _ _ _ _ (by decide)]
      rfl
    · exact Or.inl (by norm_num)
    · rw [show ((0 : Nat) : Int) = (0 : Int) from rfl]
      rw [SetRGBA_pix_same _ _ _ (by decide)]
      rfl
  · apply genLoop_green
    · rw [SetRGBA_rect]
      rfl
    · rw [show ((1 : Nat) : Int) = (1 : Int) from rfl]
      rw [SetRGBA_pix_other _ _ _ _ (by decide)]
      rfl
    · rw [show ((1 : Nat) : Int) = (1 : Int) from rfl]
      rw [SetRGBA_pix_same _ _ _ (by decide)]
      rfl
    · exact Or.inr (by norm_num)
    · rw [show ((1 : Nat) : Int) = (1 : Int) from rfl]
      rw [SetRGBA_pix_same _ _ _ (by decide)]
      rfl

theorem inRectB_iff (r : Rect) (p : Point) :
    inRectB r p = true ↔
      r.minX ≤ p.x ∧ p.x < r.maxX ∧ r.minY ≤ p.y ∧ p.y < r.maxY := by
  unfold inRectB
  simp [Bool.and_eq_true, decide_eq_true_iff, and_assoc]

theorem ssAppend_sum (ss : stateSpace) (k v : Nat) :
    ((ssAppend ss k v).map (fun e => e.2.length)).sum
      = (ss.map (fun e => e.2.length)).sum + 1 := by
  induction ss with
  | nil => simp [ssAppend]
  | cons e rest ih =>
    obtain ⟨k2, l⟩ := e
    by_cases h : k2 = k
    · simp [ssAppend, h]
      omega
    · simp [ssAppend, h, ih]
      omega

theorem tt_add (m : markov) (c1 c2 : Color) :
    totalTransitions (m.AddColorTransition c1 c2) = totalTransitions m + 1 := by
  unfold totalTransitions markov.AddColorTransition
  exact ssAppend_sum _ _ _

theorem countAdj_expand (r : Rect) (p : Point) :
    countAdj r p =
      (if inRectB r (p.Add ⟨-1, 0⟩) then 1 else 0) +
      ((if inRectB r (p.Add ⟨0, -1⟩) then 1 else 0) +
       ((if inRectB r (p.Add ⟨1, 0⟩) then 1 else 0) +
        (if inRectB r (p.Add ⟨0, 1⟩) then 1 else 0))) := by
  cases h1 : inRectB r (p.Add ⟨-1, 0⟩) <;>
    cases h2 : inRectB r (p.Add ⟨0, -1⟩) <;>
    cases h3 : inRectB r (p.Add ⟨1, 0⟩) <;>
    cases h4 : inRectB r (p.Add ⟨0, 1⟩) <;>
    simp [countAdj, adjacent, List.filter, h1, h2, h3, h4]

theorem tt_scanAdj (src : Point → Color) (r : Rect) (p : Point) (m : markov) :
    totalTransitions (scanAdj src r p m) = totalTransitions m + countAdj r p := by
  unfold scanAdj countAdj
  generalize adjacent = adjs
  induction adjs generalizing m with
  | nil => simp
  | cons a rest ih =>
    simp only [List.foldl_cons, List.filter_cons]
    by_cases h : inRectB r (p.Add a) = true
    · rw [if_pos h]
      simp only [h, ih, tt_add]
      simp
      omega
    · rw [if_neg h]
      simp only [Bool.not_eq_true] at h
      simp only [h, ih]
      simp

theorem tt_foldl_add {α : Type} (f : markov → α → markov) (g : α → Nat)
    (hf : ∀ m a, totalTransitions (f m a) = totalTransitions m + g a) :
    ∀ (l : List α) (m : markov),
      totalTransitions (l.foldl f m) = totalTransitions m + (l.map g).sum := by
  intro l
  induction l with
  | nil => simp
  | cons a rest ih =>
    intro m
    simp only [List.foldl_cons, List.map_cons, List.sum_cons, ih, hf]
    omega

theorem tt_buildFromGrid (src : Point → Color) (r : Rect) :
    totalTransitions (buildFromGrid src r) = validPairCount r := by
  unfold buildFromGrid validPairCount
  rw [tt_foldl_add _ (fun x => ((intRange r.minY r.maxY).map
    (fun y => countAdj r ⟨x, y⟩)).sum) ?_]
  · simp [totalTransitions, markov.New]
  · intro m x
    rw [tt_foldl_add _ (fun y => countAdj r ⟨x, y⟩) ?_]
    intro m y
    exact tt_scanAdj src r ⟨x, y⟩ m

theorem sum_range_if_lt (k c : Nat) : ∀ m : Nat,
    ((List.range m).map (fun i => if i < k then c else 0)).sum = min m k * c := by
  intro m
  induction m with
  | zero => simp
  | succ m ih =>
    rw [List.range_succ, List.map_append, List.sum_append, ih]
    simp only [List.map_cons, List.map_nil, List.sum_cons, List.sum_nil]
    split <;> rename_i h
    · have : min (m + 1) k = min m k + 1 := by omega
      rw [this]
      ring
    · have : min (m + 1) k = min m k := by omega
      rw [this]
      omega

theorem sum_range_if_pos (c : Nat) : ∀ m : Nat,
    ((List.range m).map (fun i => if 0 < i then c else 0)).sum = (m - 1) * c := by
  intro m
  induction m with
  | zero => simp
  | succ m ih =>
    rw [List.range_succ, List.map_append, List.sum_append, ih]
    simp only [List.map_cons, List.map_nil, List.sum_cons, List.sum_nil]
    split <;> rename_i h
    · have : m - 1 + 1 = m := by omega
      calc (m - 1) * c + (c + 0) = ((m - 1) + 1) * c := by ring
        _ = m * c := by rw [this]
      
    · have hm : m = 0 := by omega
      simp [hm]

theorem sum_range_const (c : Nat) : ∀ m : Nat,
    ((List.range m).map (fun _ => c)).sum = m * c := by
  intro m
  induction m with
  | zero => simp
  | succ m ih =>
    rw [List.range_succ, List.map_append, List.sum_append, ih]
    simp only [List.map_cons, List.map_nil, List.sum_cons, List.sum_nil]
    ring

theorem sum_map_add {α : Type} (l : List α) (f g : α → Nat) :
    (l.map (fun y => f y + g y)).sum = (l.map f).sum + (l.map g).sum := by
  induction l with
  | nil => simp
  | cons a t ih =>
    simp only [List.map_cons, List.sum_cons, ih]
    omega

theorem countAdj_grid (r : Rect) (j i : Nat)
    (hj : j < (r.maxX - r.minX).toNat) (hi : i < (r.maxY - r.minY).toNat) :
    countAdj r ⟨r.minX + (j : Int), r.minY + (i : Int)⟩ =
      (if 0 < j then 1 else 0) +
      ((if 0 < i then 1 else 0) +
       ((if j < (r.maxX - r.minX).toNat - 1 then 1 else 0) +
        (if i < (r.maxY - r.minY).toNat - 1 then 1 else 0))) := by
  rw [countAdj_expand]
  have e1 : (inRectB r ((⟨r.minX + (j : Int), r.minY + (i : Int)⟩ : Point).Add
      ⟨-1, 0⟩) = true) ↔ 0 < j := by
    rw [inRectB_iff]
    simp only [Point.Add]
    omega
  have e2 : (inRectB r ((⟨r.minX + (j : Int), r.minY + (i : Int)⟩ : Point).Add
      ⟨0, -1⟩) = true) ↔ 0 < i := by
    rw [inRectB_iff]
    simp only [Point.Add]
    omega
  have e3 : (inRectB r ((⟨r.minX + (j : Int), r.minY + (i : Int)⟩ : Point).Add
      ⟨1, 0⟩) = true) ↔ j < (r.maxX - r.minX).toNat - 1 := by
    rw [inRectB_iff]
    simp only [Point.Add]
    omega
  have e4 : (inRectB r ((⟨r.minX + (j : Int), r.minY + (i : Int)⟩ : Point).Add
      ⟨0, 1⟩) = true) ↔ i < (r.maxY - r.minY).toNat - 1 := by
    rw [inRectB_iff]
    simp only [Point.Add]
    omega
  rw [if_congr e1 rfl rfl, if_congr e2 rfl rfl, if_congr e3 rfl rfl,
    if_congr e4 rfl rfl]

theorem colSum_eq (r : Rect) (j : Nat) (hj : j < (r.maxX - r.minX).toNat) :
    ((List.range (r.maxY - r.minY).toNat).map
      (fun (i : Nat) => countAdj r ⟨r.minX + (j : Int), r.minY + (i : Int)⟩)).sum =
    (if 0 < j then (r.maxY - r.minY).toNat else 0) +
    (if j < (r.maxX - r.minX).toNat - 1 then (r.maxY - r.minY).toNat else 0) +
    2 * ((r.maxY - r.minY).toNat - 1) := by
  have hmap : (List.range (r.maxY - r.minY).toNat).map
      (fun (i : Nat) => countAdj r ⟨r.minX + (j : Int), r.minY + (i : Int)⟩) =
      (List.range (r.maxY - r.minY).toNat).map
      (fun i => (if 0 < j then 1 else 0) +
        ((if 0 < i then 1 else 0) +
         ((if j < (r.maxX - r.minX).toNat - 1 then 1 else 0) +
          (if i < (r.maxY - r.minY).toNat - 1 then 1 else 0)))) :=
    List.map_congr_left (fun i hi => countAdj_grid r j i hj (List.mem_range.mp hi))
  rw [hmap, sum_map_add, sum_map_add, sum_map_add, sum_range_const,
    sum_range_if_pos, sum_range_const, sum_range_if_lt]
  by_cases h1 : 0 < j <;> by_cases h2 : j < (r.maxX - r.minX).toNat - 1 <;>
    simp [h1, h2] <;> omega

theorem validPairCount_eq (r : Rect) :
    validPairCount r =
      2 * (r.maxY - r.minY).toNat * ((r.maxX - r.minX).toNat - 1) +
      2 * (r.maxX - r.minX).toNat * ((r.maxY - r.minY).toNat - 1) := by
  unfold validPairCount intRange
  simp only [List.map_map, Function.comp_def]
  have hmap2 : (List.range (r.maxX - r.minX).toNat).map
      (fun (j : Nat) => ((List.range (r.maxY - r.minY).toNat).map
        (fun (i : Nat) => countAdj r ⟨r.minX + (j : Int), r.minY + (i : Int)⟩)).sum) =
      (List.range (r.maxX - r.minX).toNat).map
      (fun j => (if 0 < j then (r.maxY - r.minY).toNat else 0) +
        (if j < (r.maxX - r.minX).toNat - 1 then (r.maxY - r.minY).toNat else 0) +
        2 * ((r.maxY - r.minY).toNat - 1)) :=
    List.map_congr_left (fun j hj => colSum_eq r j (List.mem_range.mp hj))
  rw [hmap2, sum_map_add, sum_map_add, sum_range_if_pos, sum_range_if_lt,
    sum_range_const]
  have hmin : min (r.maxX - r.minX).toNat ((r.maxX - r.minX).toNat - 1)
      = (r.maxX - r.minX).toNat - 1 := by omega
  rw [hmin]
  ring

theorem four_formula (w h : Nat) :
    2 * (h + 1) * ((w + 1) - 1) + 2 * (w + 1) * ((h + 1) - 1)
      = 4 * (w + 1) * (h + 1) - 2 * (h + 1) - 2 * (w + 1) := by
  simp only [Nat.add_sub_cancel]
  have l1 : 2 * (h + 1) * w = 2 * (w * h) + 2 * w := by ring
  have l2 : 2 * (w + 1) * h = 2 * (w * h) + 2 * h := by ring
  have l3 : 4 * (w + 1) * (h + 1) = 4 * (w * h) + 4 * w + 4 * h + 4 := by ring
  rw [l1, l2, l3]
  generalize w * h = t
  omega

/-- C4 (amended): the sum of transition-list lengths over all keys equals the
number of valid (pixel, in-bounds-neighbor) ordered pairs of the source grid,
which for an H x W grid is `2*H*(W-1) + 2*W*(H-1)`, i.e. `4*W*H - 2*H - 2*W`
when W, H >= 1 — not the claimed `2*H*W - 2*H - 2*W`. -/
theorem transition_count_conservation (src : Point → Color) (r : Rect) :
    totalTransitions (buildFromGrid src r) = validPairCount r ∧
    validPairCount r =
      2 * (r.maxY - r.minY).toNat * ((r.maxX - r.minX).toNat - 1) +
      2 * (r.maxX - r.minX).toNat * ((r.maxY - r.minY).toNat - 1) ∧
    (1 ≤ (r.maxX - r.minX).toNat → 1 ≤ (r.maxY - r.minY).toNat →
      validPairCount r =
        4 * (r.maxX - r.minX).toNat * (r.maxY - r.minY).toNat -
          2 * (r.maxY - r.minY).toNat - 2 * (r.maxX - r.minX).toNat) := by
  refine ⟨tt_buildFromGrid src r, validPairCount_eq r, ?_⟩
  intro hW hH
  rw [validPairCount_eq r]
  obtain ⟨w, hw⟩ := Nat.exists_eq_add_of_le hW
  obtain ⟨h, hh⟩ := Nat.exists_eq_add_of_le hH
  rw [show (r.maxX - r.minX).toNat = w + 1 from by omega,
    show (r.maxY - r.minY).toNat = h + 1 from by omega]
  exact four_formula w h

/-- Witness for C4 at the spec's 2x2 example source. -/
theorem transition_count_conservation_witness :
    totalTransitions (buildFromGrid src2x2 rect2x2) = validPairCount rect2x2 ∧
    validPairCount rect2x2 = 4 * 2 * 2 - 2 * 2 - 2 * 2 :=
  ⟨(transition_count_conservation src2x2 rect2x2).1,
    (transition_count_conservation src2x2 rect2x2).2.2 (by decide) (by decide)⟩

theorem getNextColor_absent (m : markov) (c : Color) (rng : List Nat)
    (h : lookupSS m.model (encodeColor c) = none) :
    m.GetNextColor c rng = some (none, rng) := by
  simp only [markov.GetNextColor, h]

/-- C2 (amended): the claim fails on the code.  When `GetNextColor` returns
Go `nil` for a reached color (its key absent from the state space) and an
in-bounds unset neighbor is being processed, the synthesis operation PANICS
(`colorToRGBA` dereferences the nil color, line 127): the cell is not left
unset with the walk continuing. -/
theorem missing_transition_fatal (m : markov) (fuel : Nat) (g : RGBAImage)
    (p : Point) (rng : List Nat)
    (habs : lookupSS m.model (encodeColor (g.At p)) = none)
    (hin : inRectB m.bounds (p.Add ⟨-1, 0⟩) = true)
    (hunset : (g.pix (p.Add ⟨-1, 0⟩)).r = 0) :
    genLoop m (fuel + 1) g [p] rng = GenOutcome.panics := by
  have hnext := getNextColor_absent m (g.At p) rng.tail habs
  have hstep : adjStep m (p.Add ⟨-1, 0⟩) (g, [], g.At p, rng.tail) = none :=
    adjStep_nil_panic _ _ _ _ _ _ _ hin hunset hnext
  have hpa : processAdjs m p adjacent (g, [], g.At p, rng.tail) = none := by
    show processAdjs m p [⟨-1, 0⟩, ⟨0, -1⟩, ⟨1, 0⟩, ⟨0, 1⟩]
      (g, [], g.At p, rng.tail) = none
    exact processAdjs_cons_none _ _ _ _ _ hstep
  exact genLoop_succ_cons_none _ _ _ _ _ _ (genIter_singleton_none _ _ _ _ hpa)

/-- Witness for C2's amended theorem: the `mMissing` run state in which blue
(no outgoing transitions) has just been reached at (1,0). -/
theorem missing_transition_fatal_witness :
    genLoop mMissing (4 + 1) gBlueAt1 [⟨1, 0⟩] [] = GenOutcome.panics :=
  missing_transition_fatal mMissing 4 gBlueAt1 ⟨1, 0⟩ [] (by decide) (by decide)
    (by decide)

/-- Counterexample for C2 as stated: on the model where red's only
transition target is blue and blue has no entry, `Generate` panics instead
of leaving the cell unset and continuing. -/
theorem missing_transition_is_fatal_cex :
    lookupSS mMissing.model kBlue = none ∧
    (mMissing.Generate 10 []).isPanics = true := ⟨rfl, rfl⟩

/-- C3 (amended): the claim fails on the code.  For every 1x1 source image,
the build scan records zero transitions AND zero distinct keys (not 1: keys
are only recorded by `AddColorTransition`, which never fires without an
in-bounds neighbor), and `Generate` PANICS (`rand.Int` with bound 0 in
`GetRandomColor`) instead of producing a 1x1 grid of the source color. -/
theorem one_by_one_source (c : Color) (fuel : Nat) (rng : List Nat) :
    (buildFromGrid (fun _ => c) ⟨0, 0, 1, 1⟩).keys = [] ∧
    totalTransitions (buildFromGrid (fun _ => c) ⟨0, 0, 1, 1⟩) = 0 ∧
    (buildFromGrid (fun _ => c) ⟨0, 0, 1, 1⟩).Generate fuel rng
      = GenOutcome.panics := by
  have hb : buildFromGrid (fun _ => c) ⟨0, 0, 1, 1⟩ = mEmpty11 := rfl
  rw [hb]
  refine ⟨rfl, rfl, ?_⟩
  have h1 : randInt mEmpty11.MaxX rng = some (rng.headD 0 % 1, rng.tail) := by
    rw [randInt_pos _ _ (by decide)]
    rfl
  have h2 : randInt mEmpty11.MaxY rng.tail
      = some (rng.tail.headD 0 % 1, rng.tail.tail) := by
    rw [randInt_pos _ _ (by decide)]
    rfl
  have hs : mEmpty11.startPoint rng = some (⟨0, 0⟩, rng.tail.tail) := by
    simp only [markov.startPoint, h1, h2, Nat.mod_one]
    rfl
  have hc : mEmpty11.GetRandomColor rng.tail.tail = none := by
    simp only [markov.GetRandomColor]
    rw [show randInt (Int.ofNat (mEmpty11.keys.length)) rng.tail.tail = none from
      by unfold randInt; rw [if_pos (by decide)]]
  exact Generate_panic_color mEmpty11 fuel rng rng.tail.tail ⟨0, 0⟩ hs hc

/-- Counterexample for C3 as stated, on the concrete 1x1 red source: the
distinct-key list has 0 entries, not 1, and `Generate` panics. -/
theorem one_by_one_source_cex :
    totalTransitions mOne = 0 ∧ mOne.keys.length = 0 ∧
    (mOne.Generate 10 []).isPanics = true := ⟨rfl, rfl, rfl⟩

/-- C5 (amended): the claim fails on the code for bounds rectangles whose
min corner is not the origin.  The starting coordinate is drawn uniformly
from `[0, MaxX) x [0, MaxY)` — the min corner is ignored (lines 101-102).
First conjunct: the point always lies in that origin box.  Second conjunct:
on in-range draws the map is the identity, so the distribution is the
uniform one on `[0, MaxX) x [0, MaxY)`; this equals the bounds rectangle
exactly when the bounds min is (0,0), as holds for decoded PNG images. -/
theorem start_coordinate_range (m : markov) (vx vy : Nat) (rest : List Nat)
    (hx : 0 < m.bounds.maxX) (hy : 0 < m.bounds.maxY) :
    (∃ p : Point, m.startPoint (vx :: vy :: rest) = some (p, rest) ∧
      0 ≤ p.x ∧ p.x < m.bounds.maxX ∧ 0 ≤ p.y ∧ p.y < m.bounds.maxY) ∧
    (vx < m.bounds.maxX.toNat → vy < m.bounds.maxY.toNat →
      m.startPoint (vx :: vy :: rest) = some (⟨(vx : Int), (vy : Int)⟩, rest)) := by
  have h1 : randInt m.MaxX (vx :: vy :: rest)
      = some (vx % m.bounds.maxX.toNat, vy :: rest) := by
    rw [show m.MaxX = m.bounds.maxX from rfl, randInt_pos _ _ hx]
    rfl
  have h2 : randInt m.MaxY (vy :: rest)
      = some (vy % m.bounds.maxY.toNat, rest) := by
    rw [show m.MaxY = m.bounds.maxY from rfl, randInt_pos _ _ hy]
    rfl
  have hxlt : vx % m.bounds.maxX.toNat < m.bounds.maxX.toNat :=
    Nat.mod_lt vx (by omega)
  have hylt : vy % m.bounds.maxY.toNat < m.bounds.maxY.toNat :=
    Nat.mod_lt vy (by omega)
  constructor
  · refine ⟨⟨((vx % m.bounds.maxX.toNat : Nat) : Int),
      ((vy % m.bounds.maxY.toNat : Nat) : Int)⟩, ?_, ?_, ?_, ?_, ?_⟩
    · simp only [markov.startPoint, h1, h2]
    · show (0 : Int) ≤ ((vx % m.bounds.maxX.toNat : Nat) : Int)
      omega
    · show ((vx % m.bounds.maxX.toNat : Nat) : Int) < m.bounds.maxX
      omega
    · show (0 : Int) ≤ ((vy % m.bounds.maxY.toNat : Nat) : Int)
      omega
    · show ((vy % m.bounds.maxY.toNat : Nat) : Int) < m.bounds.maxY
      omega
  · intro hvx hvy
    simp only [markov.startPoint, h1, h2, Nat.mod_eq_of_lt hvx,
      Nat.mod_eq_of_lt hvy]

/-- Witness for C5's amended theorem at bounds (0,0)-(3,1), draws 2 and 0. -/
theorem start_coordinate_range_witness :
    mMissing.startPoint [2, 0, 7] = some (⟨2, 0⟩, [7]) ∧
    inRectB mMissing.bounds ⟨2, 0⟩ = true :=
  ⟨(start_coordinate_range mMissing 2 0 [7] (by decide) (by decide)).2
      (by decide) (by decide),
    by decide⟩

/-- Counterexample for C5 as stated: with bounds (2,2)-(4,4) and zero draws
the starting coordinate is (0,0), which lies outside the bounds. -/
theorem start_coordinate_cex :
    mShift.startPoint [0, 0] = some (⟨0, 0⟩, []) ∧
    inRectB mShift.bounds ⟨0, 0⟩ = false := ⟨rfl, rfl⟩

/-- C6 (amended): the claim fails on the code.  `c` is reassigned at line
126, so only the FIRST processed unset neighbor receives
`GetNextColor(color at popped point)`; each later unset neighbor in the same
step receives `GetNextColor` of the color just generated for the previous
neighbor.  Here: left neighbor gets `c1` drawn from the popped color, right
neighbor gets `c2` drawn from `c1`. -/
theorem next_color_chains (m : markov) (g : RGBAImage) (p : Point)
    (v0 : Nat) (rng : List Nat) (c1 c2 : Color) (rng1 rng2 : List Nat)
    (hrect : g.rect = m.bounds)
    (hL : inRectB m.bounds (p.Add ⟨-1, 0⟩) = true)
    (hLu : (g.pix (p.Add ⟨-1, 0⟩)).r = 0)
    (hU : inRectB m.bounds (p.Add ⟨0, -1⟩) = false)
    (hR : inRectB m.bounds (p.Add ⟨1, 0⟩) = true)
    (hRu : (g.pix (p.Add ⟨1, 0⟩)).r = 0)
    (hD : inRectB m.bounds (p.Add ⟨0, 1⟩) = false)
    (h1 : m.GetNextColor (g.At p) rng = some (some c1, rng1))
    (h2 : m.GetNextColor c1 rng1 = some (some c2, rng2)) :
    iterAt (genIter m g [p] (v0 :: rng)) (p.Add ⟨1, 0⟩)
      = some (colorToRGBA c2) ∧
    iterAt (genIter m g [p] (v0 :: rng)) (p.Add ⟨-1, 0⟩)
      = some (colorToRGBA c1) := by
  have hne : p.Add ⟨1, 0⟩ ≠ p.Add ⟨-1, 0⟩ := by
    simp only [Point.Add, ne_eq, Point.mk.injEq, not_and]
    intro hx
    omega
  have s1 : adjStep m (p.Add ⟨-1, 0⟩) (g, [], g.At p, rng)
      = some (g.SetRGBA (p.Add ⟨-1, 0⟩) (colorToRGBA c1),
          [] ++ [p.Add ⟨-1, 0⟩], c1, rng1) :=
    adjStep_set _ _ _ _ _ _ _ _ hL hLu h1
  have s2 : adjStep m (p.Add ⟨0, -1⟩)
      ((g.SetRGBA (p.Add ⟨-1, 0⟩) (colorToRGBA c1),
        [] ++ [p.Add ⟨-1, 0⟩], c1, rng1) :
        RGBAImage × List Point × Color × List Nat)
      = some (g.SetRGBA (p.Add ⟨-1, 0⟩) (colorToRGBA c1),
          [] ++ [p.Add ⟨-1, 0⟩], c1, rng1) :=
    adjStep_out _ _ _ _ _ _ hU
  have hRu2 : ((g.SetRGBA (p.Add ⟨-1, 0⟩) (colorToRGBA c1)).pix
      (p.Add ⟨1, 0⟩)).r = 0 := by
    rw [SetRGBA_pix_other g _ _ _ hne]
    exact hRu
  have s3 : adjStep m (p.Add ⟨1, 0⟩)
      ((g.SetRGBA (p.Add ⟨-1, 0⟩) (colorToRGBA c1),
        [] ++ [p.Add ⟨-1, 0⟩], c1, rng1) :
        RGBAImage × List Point × Color × List Nat)
      = some ((g.SetRGBA (p.Add ⟨-1, 0⟩) (colorToRGBA c1)).SetRGBA
          (p.Add ⟨1, 0⟩) (colorToRGBA c2),
          ([] ++ [p.Add ⟨-1, 0⟩]) ++ [p.Add ⟨1, 0⟩], c2, rng2) :=
    adjStep_set _ _ _ _ _ _ _ _ hR hRu2 h2
  have s4 : adjStep m (p.Add ⟨0, 1⟩)
      (((g.SetRGBA (p.Add ⟨-1, 0⟩) (colorToRGBA c1)).SetRGBA
          (p.Add ⟨1, 0⟩) (colorToRGBA c2),
        ([] ++ [p.Add ⟨-1, 0⟩]) ++ [p.Add ⟨1, 0⟩], c2, rng2) :
        RGBAImage × List Point × Color × List Nat)
      = some ((g.SetRGBA (p.Add ⟨-1, 0⟩) (colorToRGBA c1)).SetRGBA
          (p.Add ⟨1, 0⟩) (colorToRGBA c2),
          ([] ++ [p.Add ⟨-1, 0⟩]) ++ [p.Add ⟨1, 0⟩], c2, rng2) :=
    adjStep_out _ _ _ _ _ _ hD
  have hpa : processAdjs m p adjacent (g, [], g.At p, rng)
      = some ((g.SetRGBA (p.Add ⟨-1, 0⟩) (colorToRGBA c1)).SetRGBA
          (p.Add ⟨1, 0⟩) (colorToRGBA c2),
          ([] ++ [p.Add ⟨-1, 0⟩]) ++ [p.Add ⟨1, 0⟩], c2, rng2) := by
    show processAdjs m p [⟨-1, 0⟩, ⟨0, -1⟩, ⟨1, 0⟩, ⟨0, 1⟩]
      (g, [], g.At p, rng) = _
    rw [processAdjs_cons_some _ _ _ _ _ _ s1,
      processAdjs_cons_some _ _ _ _ _ _ s2,
      processAdjs_cons_some _ _ _ _ _ _ s3,
      processAdjs_cons_some _ _ _ _ _ _ s4, processAdjs_nil]
  have hgi : genIter m g [p] (v0 :: rng)
      = some ((g.SetRGBA (p.Add ⟨-1, 0⟩) (colorToRGBA c1)).SetRGBA
          (p.Add ⟨1, 0⟩) (colorToRGBA c2),
          ([] ++ [p.Add ⟨-1, 0⟩]) ++ [p.Add ⟨1, 0⟩], rng2) :=
    genIter_singleton_some _ _ _ _ _ _ _ _ hpa
  have hrect1 : (g.SetRGBA (p.Add ⟨-1, 0⟩) (colorToRGBA c1)).rect = m.bounds := by
    rw [SetRGBA_rect, hrect]
  constructor
  · rw [hgi]
    show some (((g.SetRGBA (p.Add ⟨-1, 0⟩) (colorToRGBA c1)).SetRGBA
      (p.Add ⟨1, 0⟩) (colorToRGBA c2)).At (p.Add ⟨1, 0⟩)) = _
    unfold RGBAImage.At
    rw [SetRGBA_rect, hrect1, if_pos hR]
    rw [SetRGBA_pix_same _ _ _ (by rw [hrect1]; exact hR)]
  · rw [hgi]
    show some (((g.SetRGBA (p.Add ⟨-1, 0⟩) (colorToRGBA c1)).SetRGBA
      (p.Add ⟨1, 0⟩) (colorToRGBA c2)).At (p.Add ⟨-1, 0⟩)) = _
    unfold RGBAImage.At
    rw [SetRGBA_rect, hrect1, if_pos hL]
    rw [SetRGBA_pix_other _ _ _ _ (Ne.symm hne)]
    rw [SetRGBA_pix_same g _ _ (by rw [hrect]; exact hL)]

/-- Witness for C6's amended theorem on the red -> green -> blue chain
model. -/
theorem next_color_chains_witness :
    iterAt (genIter mChain gChain [⟨1, 0⟩] [0]) ⟨2, 0⟩ = some cBlue ∧
    iterAt (genIter mChain gChain [⟨1, 0⟩] [0]) ⟨0, 0⟩ = some cGreen :=
  next_color_chains mChain gChain ⟨1, 0⟩ 0 [] cGreen cBlue [] []
    (by decide) (by decide) (by decide) (by decide) (by decide) (by decide)
    (by decide) (by decide) (by decide)

/-- Counterexample for C6 as stated: the popped point (1,0) holds red whose
only transition is green, yet the second processed neighbor (2,0) ends up
blue — the color passed to `GetNextColor` for it was the green produced for
the first neighbor, not the popped point's red. -/
theorem same_current_color_cex :
    gChain.At ⟨1, 0⟩ = cRed ∧
    lookupSS mChain.model (encodeColor cRed) = some [kGreen] ∧
    colorToRGBA (decodeColor kGreen) = cGreen ∧
    iterAt (genIter mChain gChain [⟨1, 0⟩] []) ⟨2, 0⟩ = some cBlue ∧
    cBlue ≠ cGreen := ⟨rfl, rfl, rfl, rfl, by decide⟩

theorem adjStep_rect (m : markov) (p2 : Point)
    (acc acc2 : RGBAImage × List Point × Color × List Nat)
    (h : adjStep m p2 acc = some acc2) : acc2.1.rect = acc.1.rect := by
  obtain ⟨im, stk, c, rng⟩ := acc
  rw [adjStep_eq] at h
  split at h
  · split at h
    · split at h
      · cases h
      · cases h
      · injection h with h2
        subst h2
        exact SetRGBA_rect _ _ _
    · injection h with h2
      subst h2
      rfl
  · injection h with h2
    subst h2
    rfl

theorem processAdjs_rect (m : markov) (p : Point) : ∀ (adjs : List Point)
    (acc res : RGBAImage × List Point × Color × List Nat),
    processAdjs m p adjs acc = some res → res.1.rect = acc.1.rect := by
  intro adjs
  induction adjs with
  | nil =>
    intro acc res h
    injection h with h2
    subst h2
    rfl
  | cons a rest ih =>
    intro acc res h
    simp only [processAdjs] at h
    cases hstep : adjStep m (p.Add a) acc with
    | none => rw [hstep] at h; cases h
    | some acc2 =>
      rw [hstep] at h
      rw [ih acc2 res h, adjStep_rect m (p.Add a) acc acc2 hstep]

theorem genIter_rect (m : markov) (im : RGBAImage) (stack : List Point)
    (rng : List Nat) (im2 : RGBAImage) (stk2 : List Point) (rng2 : List Nat)
    (h : genIter m im stack rng = some (im2, stk2, rng2)) :
    im2.rect = im.rect := by
  unfold genIter at h
  cases hri : randInt (Int.ofNat stack.length) rng with
  | none => rw [hri] at h; cases h
  | some pr =>
    obtain ⟨i, rng1⟩ := pr
    simp only [hri] at h
    cases hpa : processAdjs m (stack.getD i ⟨0, 0⟩) adjacent
        (im, stack.eraseIdx i, im.At (stack.getD i ⟨0, 0⟩), rng1) with
    | none => rw [hpa] at h; cases h
    | some acc2 =>
      obtain ⟨a1, a2, a3, a4⟩ := acc2
      rw [hpa] at h
      injection h with h2
      have hr := processAdjs_rect m (stack.getD i ⟨0, 0⟩) adjacent
        (im, stack.eraseIdx i, im.At (stack.getD i ⟨0, 0⟩), rng1)
        (a1, a2, a3, a4) hpa
      have h3 : im2 = a1 := congrArg Prod.fst h2.symm
      rw [h3]
      exact hr

theorem genLoop_rect (m : markov) : ∀ (fuel : Nat) (im : RGBAImage)
    (stack : List Point) (rng : List Nat) (g : RGBAImage),
    genLoop m fuel im stack rng = GenOutcome.ok g → g.rect = im.rect := by
  intro fuel
  induction fuel with
  | zero => intro im stack rng g h; cases h
  | succ n ih =>
    intro im stack rng g h
    simp only [genLoop] at h
    by_cases hst : stack.isEmpty = true
    · rw [if_pos hst] at h
      injection h with h2
      subst h2
      rfl
    · rw [if_neg hst] at h
      cases hiter : genIter m im stack rng with
      | none => rw [hiter] at h; cases h
      | some tr =>
        obtain ⟨im2, stk2, rng2⟩ := tr
        rw [hiter] at h
        rw [ih im2 stk2 rng2 g h,
          genIter_rect m im stack rng im2 stk2 rng2 hiter]

/-- C7: whenever `Generate` returns an image, its bounds rectangle equals
the model's bounds rectangle exactly (for canonical bounds, as produced by
decoding a source image). -/
theorem generate_bounds_preserved (m : markov)
    (hx : m.bounds.minX ≤ m.bounds.maxX) (hy : m.bounds.minY ≤ m.bounds.maxY)
    (fuel : Nat) (rng : List Nat) (g : RGBAImage)
    (h : m.Generate fuel rng = GenOutcome.ok g) : g.rect = m.bounds := by
  have hmk : mkRect m.MinX m.MinY m.MaxX m.MaxY = m.bounds := by
    unfold mkRect markov.MinX markov.MinY markov.MaxX markov.MaxY
    rw [if_neg (by omega), if_neg (by omega)]
  unfold markov.Generate at h
  cases hs : m.startPoint rng with
  | none => simp only [hs] at h; cases h
  | some pr =>
    obtain ⟨p, rng1⟩ := pr
    simp only [hs] at h
    cases hc : m.GetRandomColor rng1 with
    | none => simp only [hc] at h; cases h
    | some cr =>
      obtain ⟨c, rng2⟩ := cr
      simp only [hc] at h
      rw [genLoop_rect m fuel _ [p] rng2 g h, SetRGBA_rect]
      show (newRGBA (mkRect m.MinX m.MinY m.MaxX m.MaxY)).rect = m.bounds
      rw [show (newRGBA (mkRect m.MinX m.MinY m.MaxX m.MaxY)).rect
        = mkRect m.MinX m.MinY m.MaxX m.MaxY from rfl, hmk]

/-- Witness for C7 on the all-red 1x2 model, whose generation completes. -/
theorem generate_bounds_preserved_witness :
    (mRed.Generate 3 []).rectOf = some mRed.bounds := by
  have hOk : (mRed.Generate 3 []).isOk = true := rfl
  cases hres : mRed.Generate 3 [] with
  | ok g =>
    have hr := generate_bounds_preserved mRed (by decide) (by decide) 3 [] g hres
    simp [GenOutcome.rectOf, hr]
  | panics => rw [hres] at hOk; simp [GenOutcome.isOk] at hOk
  | fuelOut => rw [hres] at hOk; simp [GenOutcome.isOk] at hOk

theorem lookup_ssAppend (ss : stateSpace) (k v key : Nat) :
    lookupSS (ssAppend ss k v) key =
      if k = key then some ((lookupSS ss k).getD [] ++ [v])
      else lookupSS ss key := by
  induction ss with
  | nil =>
    by_cases h : k = key <;> simp [ssAppend, lookupSS, h]
  | cons e rest ih =>
    obtain ⟨k2, l⟩ := e
    by_cases h2 : k2 = k
    · subst h2
      by_cases h : k2 = key <;> simp [ssAppend, lookupSS, h, ih]
    · by_cases h : k2 = key
      · subst h
        have hk : ¬(k = k2) := fun hh => h2 hh.symm
        simp [ssAppend, lookupSS, h2, hk]
      · simp [ssAppend, lookupSS, h2, h, ih]

theorem lookupSS_mem (ss : stateSpace) (k : Nat) (l : List Nat)
    (h : lookupSS ss k = some l) : (k, l) ∈ ss := by
  induction ss with
  | nil => cases h
  | cons e rest ih =>
    obtain ⟨k2, l2⟩ := e
    by_cases h2 : k2 = k
    · subst h2
      rw [lookupSS, if_pos rfl] at h
      injection h with h3
      subst h3
      exact List.mem_cons_self _ _
    · rw [lookupSS, if_neg h2] at h
      exact List.mem_cons_of_mem _ (ih h)

theorem lookupSS_none_iff (ss : stateSpace) (k : Nat) :
    lookupSS ss k = none ↔ k ∉ ss.map Prod.fst := by
  induction ss with
  | nil => simp [lookupSS]
  | cons e rest ih =>
    obtain ⟨k2, l2⟩ := e
    by_cases h2 : k2 = k
    · subst h2
      simp [lookupSS, ih]
    · rw [lookupSS, if_neg h2, ih]
      simp only [List.map_cons, List.mem_cons]
      constructor
      · intro hmem hor
        rcases hor with h | h
        · exact h2 h.symm
        · exact hmem h
      · intro hcon hmem
        exact hcon (Or.inr hmem)

theorem ssAppend_fst_present (ss : stateSpace) (k v : Nat)
    (h : k ∈ ss.map Prod.fst) :
    (ssAppend ss k v).map Prod.fst = ss.map Prod.fst := by
  induction ss with
  | nil => simp at h
  | cons e rest ih =>
    obtain ⟨k2, l2⟩ := e
    by_cases h2 : k2 = k
    · subst h2
      simp [ssAppend]
    · simp only [List.map_cons, List.mem_cons] at h
      rcases h with h | h
    
      · exact absurd h.symm h2
      · simp [ssAppend, h2, ih h]

theorem ssAppend_fst_absent (ss : stateSpace) (k v : Nat)
    (h : k ∉ ss.map Prod.fst) :
    (ssAppend ss k v).map Prod.fst = ss.map Prod.fst ++ [k] := by
  induction ss with
  | nil => simp [ssAppend]
  | cons e rest ih =>
    obtain ⟨k2, l2⟩ := e
    simp only [List.map_cons, List.mem_cons] at h
    push_neg at h
    have h2 : k2 ≠ k := fun hh => h.1 hh.symm
    simp [ssAppend, h2, ih h.2]

theorem ssAppend_entry_cases (ss : stateSpace) (k v : Nat)
    (e : Nat × List Nat) (he : e ∈ ssAppend ss k v) :
    e ∈ ss ∨ e.2 ≠ [] := by
  induction ss with
  | nil =>
    simp only [ssAppend] at he
    right
    rw [List.mem_singleton.mp he]
    simp
  | cons e2 rest ih =>
    obtain ⟨k2, l2⟩ := e2
    by_cases h2 : k2 = k
    · subst h2
      simp only [ssAppend, if_pos rfl] at he
      rcases List.mem_cons.mp he with he2 | he2
      · right
        rw [he2]
        simp
      · left
        exact List.mem_cons_of_mem _ he2
    · simp only [ssAppend, if_neg h2] at he
      rcases List.mem_cons.mp he with he2 | he2
      · left
        rw [he2]
        exact List.mem_cons_self _ _
      · rcases ih he2 with h | h
        · exact Or.inl (List.mem_cons_of_mem _ h)
        · exact Or.inr h

/-- C10: `New`'s model satisfies the invariant; `AddColorTransition`
preserves the invariant that the distinct-key list is exactly the state
space's keys in first-insertion order without duplicates and that every
entry has a non-empty transition list; and under the invariant
`GetNextColor` never panics: whenever it finds the key, its random index is
in range of the non-empty transition list. -/
theorem model_invariant (m : markov) (h : ModelInv m) (c1 c2 : Color) :
    ModelInv markov.New ∧
    ModelInv (m.AddColorTransition c1 c2) ∧
    ∀ (c : Color) (rng : List Nat), m.GetNextColor c rng ≠ none := by
  obtain ⟨hkeys, hnodup, hne⟩ := h
  refine ⟨⟨rfl, List.nodup_nil, by simp [markov.New]⟩, ⟨?_, ?_, ?_⟩, ?_⟩
  · show (if (lookupSS m.model (encodeColor c1)).isNone
        then m.keys ++ [encodeColor c1] else m.keys)
      = (ssAppend m.model (encodeColor c1) (encodeColor c2)).map Prod.fst
    cases hk : lookupSS m.model (encodeColor c1) with
    | none =>
      rw [ssAppend_fst_absent _ _ _ ((lookupSS_none_iff _ _).mp hk), hkeys]
      simp [hk]
    | some l =>
      have hmem : encodeColor c1 ∈ m.model.map Prod.fst :=
        List.mem_map.mpr ⟨(encodeColor c1, l), lookupSS_mem _ _ _ hk, rfl⟩
      rw [ssAppend_fst_present _ _ _ hmem, hkeys]
      simp [hk]
  · show (if (lookupSS m.model (encodeColor c1)).isNone
        then m.keys ++ [encodeColor c1] else m.keys).Nodup
    cases hk : lookupSS m.model (encodeColor c1) with
    | none =>
      have hnot : encodeColor c1 ∉ m.keys := by
        rw [hkeys]
        exact (lookupSS_none_iff _ _).mp hk
      simp [List.nodup_append, hnodup, hnot]
    | some l => simpa using hnodup
  · intro e he
    show e.2 ≠ []
    have he2 : e ∈ ssAppend m.model (encodeColor c1) (encodeColor c2) := he
    rcases ssAppend_entry_cases _ _ _ _ he2 with h | h
    · exact hne e h
    · exact h
  · intro c rng
    simp only [markov.GetNextColor]
    cases hk : lookupSS m.model (encodeColor c) with
    | none => simp
    | some values =>
      have hv : values ≠ [] := hne _ (lookupSS_mem _ _ _ hk)
      have hlen : 0 < values.length := List.length_pos.mpr hv
      show (match randInt (Int.ofNat values.length) rng with
        | none => none
        | some (i, rng2) => some (some (decodeColor (values.getD i 0)), rng2))
        ≠ none
      have hpos : (0 : Int) < Int.ofNat values.length := by
        rw [Int.ofNat_eq_coe]
        exact_mod_cast hlen
      rw [randInt_pos _ _ hpos]
      simp

/-- Witness for C10 at the 2x2 example model. -/
theorem model_invariant_witness :
    ModelInv (m2x2.AddColorTransition cRed cRed) ∧
    m2x2.GetNextColor cRed [] ≠ none := by
  have hinv : ModelInv m2x2 := ⟨by decide, by decide, by decide⟩
  exact ⟨(model_invariant m2x2 hinv cRed cRed).2.1,
    (model_invariant m2x2 hinv cRed cRed).2.2 cRed []⟩

theorem foldl_pres {α : Type} (P : markov → Prop) (f : markov → α → markov)
    (hf : ∀ m a, P m → P (f m a)) :
    ∀ (l : List α) (m : markov), P m → P (l.foldl f m) := by
  intro l
  induction l with
  | nil => intro m hm; exact hm
  | cons a rest ih => intro m hm; exact ih (f m a) (hf m a hm)

theorem foldl_est {α : Type} (P : markov → Prop) (f : markov → α → markov)
    (hf : ∀ m a, P m → P (f m a)) (a : α) (hest : ∀ m, P (f m a)) :
    ∀ (l : List α), a ∈ l → ∀ m : markov, P (l.foldl f m) := by
  intro l
  induction l with
  | nil => intro ha; cases ha
  | cons x rest ih =>
    intro ha m
    rcases List.mem_cons.mp ha with h | h
    · subst h
      exact foldl_pres P f hf rest (f m a) (hest m)
    · exact ih h (f m x)

theorem present_add (m : markov) (k : Nat) (c1 c2 : Color)
    (h : ∃ l, lookupSS m.model k = some l ∧ l ≠ []) :
    ∃ l, lookupSS (m.AddColorTransition c1 c2).model k = some l ∧ l ≠ [] := by
  obtain ⟨l, hl, hne⟩ := h
  show ∃ l, lookupSS (ssAppend m.model (encodeColor c1) (encodeColor c2)) k
    = some l ∧ l ≠ []
  rw [lookup_ssAppend]
  by_cases hk : encodeColor c1 = k
  · exact ⟨_, by rw [if_pos hk], by simp⟩
  · exact ⟨l, by rw [if_neg hk]; exact hl, hne⟩

theorem present_add_self (m : markov) (c1 c2 : Color) :
    ∃ l, lookupSS (m.AddColorTransition c1 c2).model (encodeColor c1)
      = some l ∧ l ≠ [] := by
  show ∃ l, lookupSS (ssAppend m.model (encodeColor c1) (encodeColor c2))
    (encodeColor c1) = some l ∧ l ≠ []
  rw [lookup_ssAppend, if_pos rfl]
  exact ⟨_, rfl, by simp⟩

theorem present_scanAdj (src : Point → Color) (r : Rect) (p : Point) (k : Nat)
    (m : markov) (h : ∃ l, lookupSS m.model k = some l ∧ l ≠ []) :
    ∃ l, lookupSS (scanAdj src r p m).model k = some l ∧ l ≠ [] := by
  unfold scanAdj
  refine foldl_pres (fun m => ∃ l, lookupSS m.model k = some l ∧ l ≠ [])
    _ ?_ adjacent m h
  intro m2 adj hm2
  dsimp only
  split
  · exact present_add m2 k _ _ hm2
  · exact hm2

theorem present_scanAdj_est (src : Point → Color) (r : Rect) (p : Point)
    (a : Point) (ha : a ∈ adjacent) (hin : inRectB r (p.Add a) = true)
    (m : markov) :
    ∃ l, lookupSS (scanAdj src r p m).model (encodeColor (src p))
      = some l ∧ l ≠ [] := by
  unfold scanAdj
  refine foldl_est
    (fun m => ∃ l, lookupSS m.model (encodeColor (src p)) = some l ∧ l ≠ [])
    _ ?_ a ?_ adjacent ha m
  · intro m2 adj hm2
    dsimp only
    split
    · exact present_add m2 _ _ _ hm2
    · exact hm2
  · intro m2
    dsimp only
    rw [if_pos hin]
    exact present_add_self m2 _ _

theorem mem_intRange (lo hi x : Int) :
    x ∈ intRange lo hi ↔ lo ≤ x ∧ x < hi := by
  unfold intRange
  simp only [List.mem_map, List.mem_range]
  constructor
  · rintro ⟨i, hi2, rfl⟩
    omega
  · rintro ⟨h1, h2⟩
    exact ⟨(x - lo).toNat, by omega, by omega⟩

/-- C9: for every source grid with width and height at least 2, after the
build scan every pixel's quantized color key is present in the state space
with a non-empty transition list. -/
theorem model_completeness (src : Point → Color) (r : Rect)
    (hW : r.minX + 2 ≤ r.maxX) (hH : r.minY + 2 ≤ r.maxY)
    (p : Point) (hp : inRectB r p = true) :
    ∃ l, lookupSS (buildFromGrid src r).model (encodeColor (src p)) = some l
      ∧ l ≠ [] := by
  obtain ⟨hx1, hx2, hy1, hy2⟩ := (inRectB_iff r p).mp hp
  unfold buildFromGrid
  refine foldl_est
    (fun m => ∃ l, lookupSS m.model (encodeColor (src p)) = some l ∧ l ≠ [])
    _ ?_ p.x ?_ (intRange r.minX r.maxX)
    ((mem_intRange _ _ _).mpr ⟨hx1, hx2⟩) _
  · intro m x hm
    exact foldl_pres _ _ (fun m2 y hm2 => present_scanAdj src r ⟨x, y⟩ _ m2 hm2)
      (intRange r.minY r.maxY) m hm
  · intro m
    refine foldl_est
      (fun m => ∃ l, lookupSS m.model (encodeColor (src p)) = some l ∧ l ≠ [])
      _ ?_ p.y ?_ (intRange r.minY r.maxY)
      ((mem_intRange _ _ _).mpr ⟨hy1, hy2⟩) _
    · intro m2 y hm2
      exact present_scanAdj src r ⟨p.x, y⟩ _ m2 hm2
    · intro m2
      by_cases hgt : r.minX < p.x
      · exact present_scanAdj_est src r ⟨p.x, p.y⟩ ⟨-1, 0⟩ (by simp [adjacent])
          (by rw [inRectB_iff]; simp only [Point.Add]; constructor <;> omega) m2
      · exact present_scanAdj_est src r ⟨p.x, p.y⟩ ⟨1, 0⟩ (by simp [adjacent])
          (by rw [inRectB_iff]; simp only [Point.Add]; constructor <;> omega) m2

/-- Witness for C9 at the 2x2 example source and pixel (0,0). -/
theorem model_completeness_witness :
    ∃ l, lookupSS (buildFromGrid src2x2 rect2x2).model
      (encodeColor (src2x2 ⟨0, 0⟩)) = some l ∧ l ≠ [] :=
  model_completeness src2x2 rect2x2 (by decide) (by decide) ⟨0, 0⟩ (by decide)

/-- Counterexample for C4's closed form: the spec's 2x2 example records 8
transitions (8 valid ordered pairs), but the claimed formula
`2*H*W - 2*H - 2*W` evaluates to 0 there. -/
theorem transition_count_formula_cex :
    totalTransitions m2x2 = 8 ∧ validPairCount rect2x2 = 8 ∧
    2 * 2 * 2 - 2 * 2 - 2 * 2 = 0 := ⟨rfl, rfl, rfl⟩
